import Mathlib

/-!
# Verification of the iced graphics layer flattening core

Shallow embedding of `src/graphics/src/transformation.rs` and
`src/graphics/src/layer.rs`. `f32` scalars are modelled as rationals (`ℚ`);
the claims under verification are about algebraic/structural behaviour, not
floating-point rounding. Types of this repository that are not under `src/`
(the geometry utilities `Point`, `Vector`, `Size`, `Rectangle`, the
`Primitive` tree, the `Viewport`, colors, and the per-record types declared
in the `layer` submodules) are modelled from the spec, as marked on each
definition.
-/

namespace Iced

/-- Modelled from the spec: a 2D point (`iced_native::Point`, geometry
utility collaborator, not under src/). -/
structure Point where
  x : ℚ
  y : ℚ
deriving DecidableEq, Repr

def Point.new (x y : ℚ) : Point := ⟨x, y⟩

/-- Modelled from the spec: a 2D vector (`iced_native::Vector`, geometry
utility collaborator, not under src/). -/
structure Vector where
  x : ℚ
  y : ℚ
deriving DecidableEq, Repr

def Vector.new (x y : ℚ) : Vector := ⟨x, y⟩

/-- Modelled from the spec: a 2D size (`iced_native::Size`, geometry utility
collaborator, not under src/). -/
structure Size where
  width : ℚ
  height : ℚ
deriving DecidableEq, Repr

/-- Modelled from the spec: an axis-aligned rectangle
(`iced_native::Rectangle`, geometry utility collaborator, not under src/):
top-left corner plus extents. -/
structure Rectangle where
  x : ℚ
  y : ℚ
  width : ℚ
  height : ℚ
deriving DecidableEq, Repr

/-- Modelled from the spec: `Rectangle::new(top_left, size)`. -/
def Rectangle.new (top_left : Point) (size : Size) : Rectangle :=
  ⟨top_left.x, top_left.y, size.width, size.height⟩

/-- Modelled from the spec: `Rectangle::with_size(size)` — a rectangle at the
origin with the given size. -/
def Rectangle.with_size (size : Size) : Rectangle :=
  ⟨0, 0, size.width, size.height⟩

/-- Modelled from the spec: axis-aligned rectangle intersection from the
geometry utility collaborator. The overlap region is returned when it has
strictly positive area; a degenerate or empty overlap yields `none` ("drawing
degenerate/zero-area or negative-area regions must never happen
downstream"). -/
def Rectangle.intersection (a b : Rectangle) : Option Rectangle :=
  let x := max a.x b.x
  let y := max a.y b.y
  let lower_right_x := min (a.x + a.width) (b.x + b.width)
  let lower_right_y := min (a.y + a.height) (b.y + b.height)
  let width := lower_right_x - x
  let height := lower_right_y - y
  if 0 < width ∧ 0 < height then some ⟨x, y, width, height⟩ else none

/-- Modelled from the spec: `impl Add<Vector> for Rectangle` — translating a
rectangle moves its position, keeping its size. -/
instance instHAddRectangleVector : HAdd Rectangle Vector Rectangle :=
  ⟨fun r v => ⟨r.x + v.x, r.y + v.y, r.width, r.height⟩⟩

/-- Modelled from the spec: `impl Add<Vector> for Point`. -/
instance instHAddPointVector : HAdd Point Vector Point :=
  ⟨fun p v => ⟨p.x + v.x, p.y + v.y⟩⟩

/-- Modelled from the spec: `impl Add for Vector`. -/
instance instAddVector : Add Vector :=
  ⟨fun a b => ⟨a.x + b.x, a.y + b.y⟩⟩

/-- Modelled from the spec: `impl Mul<f32> for Vector` — componentwise
scaling. -/
instance instHMulVectorRat : HMul Vector ℚ Vector :=
  ⟨fun v k => ⟨v.x * k, v.y * k⟩⟩

/-!
## Transformation (`src/graphics/src/transformation.rs`)

glam's `Mat4` (16 `f32` entries) is modelled as a structure of 16 rationals.
Entry `mIJ` is row `I`, column `J` in the mathematical (column-vector)
convention, so a transform applies as `M · v`.
-/

/-- glam `Mat4`: a 4×4 matrix, entry `mIJ` at row `I`, column `J`. -/
structure Mat4 where
  m00 : ℚ
  m01 : ℚ
  m02 : ℚ
  m03 : ℚ
  m10 : ℚ
  m11 : ℚ
  m12 : ℚ
  m13 : ℚ
  m20 : ℚ
  m21 : ℚ
  m22 : ℚ
  m23 : ℚ
  m30 : ℚ
  m31 : ℚ
  m32 : ℚ
  m33 : ℚ
deriving DecidableEq, Repr

/-- glam `Mat4::IDENTITY`. -/
def Mat4.identityMat : Mat4 :=
  ⟨1, 0, 0, 0, 0, 1, 0, 0, 0, 0, 1, 0, 0, 0, 0, 1⟩

/-- glam `Mat4::from_translation(Vec3::new(x, y, z))`. -/
def Mat4.fromTranslation (x y z : ℚ) : Mat4 :=
  ⟨1, 0, 0, x, 0, 1, 0, y, 0, 0, 1, z, 0, 0, 0, 1⟩

/-- glam `Mat4::from_scale(Vec3::new(x, y, z))`. -/
def Mat4.fromScale (x y z : ℚ) : Mat4 :=
  ⟨x, 0, 0, 0, 0, y, 0, 0, 0, 0, z, 0, 0, 0, 0, 1⟩

/-- glam `impl Mul for Mat4` — the ordinary matrix product,
`(a * b)[i][j] = Σ_k a[i][k] * b[k][j]`. -/
def Mat4.mul (a b : Mat4) : Mat4 where
  m00 := a.m00 * b.m00 + a.m01 * b.m10 + a.m02 * b.m20 + a.m03 * b.m30
  m01 := a.m00 * b.m01 + a.m01 * b.m11 + a.m02 * b.m21 + a.m03 * b.m31
  m02 := a.m00 * b.m02 + a.m01 * b.m12 + a.m02 * b.m22 + a.m03 * b.m32
  m03 := a.m00 * b.m03 + a.m01 * b.m13 + a.m02 * b.m23 + a.m03 * b.m33
  m10 := a.m10 * b.m00 + a.m11 * b.m10 + a.m12 * b.m20 + a.m13 * b.m30
  m11 := a.m10 * b.m01 + a.m11 * b.m11 + a.m12 * b.m21 + a.m13 * b.m31
  m12 := a.m10 * b.m02 + a.m11 * b.m12 + a.m12 * b.m22 + a.m13 * b.m32
  m13 := a.m10 * b.m03 + a.m11 * b.m13 + a.m12 * b.m23 + a.m13 * b.m33
  m20 := a.m20 * b.m00 + a.m21 * b.m10 + a.m22 * b.m20 + a.m23 * b.m30
  m21 := a.m20 * b.m01 + a.m21 * b.m11 + a.m22 * b.m21 + a.m23 * b.m31
  m22 := a.m20 * b.m02 + a.m21 * b.m12 + a.m22 * b.m22 + a.m23 * b.m32
  m23 := a.m20 * b.m03 + a.m21 * b.m13 + a.m22 * b.m23 + a.m23 * b.m33
  m30 := a.m30 * b.m00 + a.m31 * b.m10 + a.m32 * b.m20 + a.m33 * b.m30
  m31 := a.m30 * b.m01 + a.m31 * b.m11 + a.m32 * b.m21 + a.m33 * b.m31
  m32 := a.m30 * b.m02 + a.m31 * b.m12 + a.m32 * b.m22 + a.m33 * b.m32
  m33 := a.m30 * b.m03 + a.m31 * b.m13 + a.m32 * b.m23 + a.m33 * b.m33

instance instMulMat4 : Mul Mat4 := ⟨Mat4.mul⟩

/-- glam `Mat4::transform_point3` — multiplies by `(x, y, z, 1)` assuming an
affine matrix (no perspective divide) and keeps the x/y/z components. -/
def Mat4.transformPoint3 (m : Mat4) (x y z : ℚ) : ℚ × ℚ × ℚ :=
  (m.m00 * x + m.m01 * y + m.m02 * z + m.m03,
   m.m10 * x + m.m11 * y + m.m12 * z + m.m13,
   m.m20 * x + m.m21 * y + m.m22 * z + m.m23)

/-- glam `Mat4::transform_vector3` — multiplies by `(x, y, z, 0)` (the
linear part only) and keeps the x/y/z components. -/
def Mat4.transformVector3 (m : Mat4) (x y z : ℚ) : ℚ × ℚ × ℚ :=
  (m.m00 * x + m.m01 * y + m.m02 * z,
   m.m10 * x + m.m11 * y + m.m12 * z,
   m.m20 * x + m.m21 * y + m.m22 * z)

/-- A 2D transformation matrix (`Transformation`, a newtype over `Mat4`). -/
structure Transformation where
  mat : Mat4
deriving DecidableEq, Repr

/-- `Transformation::identity()`. -/
def Transformation.identity : Transformation := ⟨Mat4.identityMat⟩

/-- `Transformation::translate(x, y)`. -/
def Transformation.translate (x y : ℚ) : Transformation :=
  ⟨Mat4.fromTranslation x y 0⟩

/-- `Transformation::translated(x, y)` — left-composes a translation. -/
def Transformation.translated (t : Transformation) (x y : ℚ) : Transformation :=
  ⟨Mat4.fromTranslation x y 0 * t.mat⟩

/-- `Transformation::scale(x, y)` — note the z factor is `1.0`. -/
def Transformation.scale (x y : ℚ) : Transformation :=
  ⟨Mat4.fromScale x y 1⟩

/-- `Transformation::scaled(x, y)` — left-composes
`Mat4::from_scale(Vec3::new(x, y, 0.0))`; note the z factor is `0.0` in the
source. -/
def Transformation.scaled (t : Transformation) (x y : ℚ) : Transformation :=
  ⟨Mat4.fromScale x y 0 * t.mat⟩

/-- `Transformation::transform_point` — glam `transform_point3` applied to
`(x, y, 0)`; the resulting x/y components are kept. -/
def Transformation.transform_point (t : Transformation) (p : Point) : Point :=
  let v := t.mat.transformPoint3 p.x p.y 0
  ⟨v.1, v.2.1⟩

/-- `Transformation::transform_vector` — glam `transform_vector3` applied to
`(x, y, 0)`; the resulting x/y components are kept. -/
def Transformation.transform_vector (t : Transformation) (v : Vector) : Vector :=
  let w := t.mat.transformVector3 v.x v.y 0
  ⟨w.1, w.2.1⟩

/-- `impl Mul for Transformation` — matrix product. -/
instance instMulTransformation : Mul Transformation :=
  ⟨fun a b => ⟨a.mat * b.mat⟩⟩

theorem Transformation.mul_def (a b : Transformation) :
    a * b = ⟨a.mat * b.mat⟩ := rfl

/-- Modelled from the spec: `Transformation::transform_scalar` (declared in
this repository outside src/) applies the transform to the vector `(s, 0)`
and returns its x-component. -/
def Transformation.transform_scalar (t : Transformation) (s : ℚ) : ℚ :=
  (t.transform_vector ⟨s, 0⟩).x

/-- Modelled from the spec: `Transformation::transform_rectangle` (declared
in this repository outside src/) transforms the top-left and bottom-right
corners independently and reconstructs an axis-aligned rectangle from the
transformed corners. -/
def Transformation.transform_rectangle (t : Transformation) (r : Rectangle) :
    Rectangle :=
  let top_left := t.transform_point ⟨r.x, r.y⟩
  let bottom_right := t.transform_point ⟨r.x + r.width, r.y + r.height⟩
  ⟨top_left.x, top_left.y, bottom_right.x - top_left.x,
    bottom_right.y - top_left.y⟩

/-!
## TranslateScale (`src/graphics/src/transformation.rs`)
-/

/-- A transformation consisting only of translation and uniform scaling
operations (`TranslateScale`). -/
structure TranslateScale where
  translation : Vector
  scale : ℚ
deriving DecidableEq, Repr

/-- `TranslateScale::identity()`. -/
def TranslateScale.identity : TranslateScale := ⟨⟨0, 0⟩, 1⟩

/-- `TranslateScale::translated`. -/
def TranslateScale.translated (t : TranslateScale) (translation : Vector) :
    TranslateScale :=
  ⟨t.translation + translation, t.scale⟩

/-- `TranslateScale::scaled`. -/
def TranslateScale.scaled (t : TranslateScale) (scale : ℚ) : TranslateScale :=
  ⟨t.translation * scale, t.scale * scale⟩

/-- `TranslateScale::transform_point`. -/
def TranslateScale.transform_point (t : TranslateScale) (p : Point) : Point :=
  Point.new (p.x * t.scale) (p.y * t.scale) + t.translation

/-- `TranslateScale::transform_scalar`. -/
def TranslateScale.transform_scalar (t : TranslateScale) (s : ℚ) : ℚ :=
  s * t.scale

/-- `TranslateScale::transform_rectangle`. -/
def TranslateScale.transform_rectangle (t : TranslateScale) (r : Rectangle) :
    Rectangle :=
  let top_left := t.transform_point (Point.new r.x r.y)
  ⟨top_left.x, top_left.y, r.width * t.scale, r.height * t.scale⟩

/-!
## Layer data model (`src/graphics/src/layer.rs` and its submodules)

The record types `Quad`, `Text`, `Image`, `Mesh` live in layer submodules
that are not under src/; they are modelled from the spec and from their use
sites in `layer.rs`.
-/

/-- Modelled from the spec: a gamma-encoded RGBA color
(`iced_native::Color`, not under src/). -/
structure Color where
  r : ℚ
  g : ℚ
  b : ℚ
  a : ℚ
deriving DecidableEq, Repr

/-- A linear-space RGBA color, `[f32; 4]`. -/
structure Rgba where
  r : ℚ
  g : ℚ
  b : ℚ
  a : ℚ
deriving DecidableEq, Repr

/-- Modelled from the spec: `Background` — a quad's fill. -/
inductive Background where
  | Color (color : Color)
deriving DecidableEq, Repr

/-- Modelled from the spec: a font choice (`iced_native::Font`, not under
src/); a default font or an externally named one. -/
inductive Font where
  | Default
  | External (name : String)
deriving DecidableEq, Repr

namespace alignment

/-- Modelled from the spec: horizontal text alignment
(`iced_native::alignment::Horizontal`, not under src/). -/
inductive Horizontal where
  | Left
  | Center
  | Right
deriving DecidableEq, Repr

/-- Modelled from the spec: vertical text alignment
(`iced_native::alignment::Vertical`, not under src/). -/
inductive Vertical where
  | Top
  | Center
  | Bottom
deriving DecidableEq, Repr

end alignment

/-- Modelled from the spec: mesh vertex/index buffer data — borrowed, never
inspected by the layer builder; represented by an identifier. -/
structure Buffers where
  id : Nat
deriving DecidableEq, Repr

/-- Modelled from the spec: a mesh style (solid/gradient fill) — carried
through untouched; represented by an identifier. -/
structure Style where
  id : Nat
deriving DecidableEq, Repr

/-- Modelled from the spec: a raster image handle — a cheaply clonable
resource identifier, not the image data. -/
structure ImageHandle where
  id : Nat
deriving DecidableEq, Repr

/-- Modelled from the spec: a vector (SVG) image handle — a cheaply clonable
resource identifier. -/
structure SvgHandle where
  id : Nat
deriving DecidableEq, Repr

/-- Modelled from the spec: a paragraph of text as recorded in a layer
(`layer::Text`, submodule not under src/; fields from its use in
`layer.rs`). -/
structure Text where
  content : String
  bounds : Rectangle
  color : Rgba
  size : ℚ
  font : Font
  horizontal_alignment : alignment.Horizontal
  vertical_alignment : alignment.Vertical
deriving DecidableEq, Repr

/-- Modelled from the spec: a colored rectangle with a border as recorded in
a layer (`layer::Quad`, submodule not under src/; fields from its use in
`layer.rs`). -/
structure Quad where
  position : ℚ × ℚ
  size : ℚ × ℚ
  color : Rgba
  border_radius : ℚ
  border_width : ℚ
  border_color : Rgba
deriving DecidableEq, Repr

/-- Modelled from the spec: a mesh record (`layer::Mesh`, submodule not
under src/; fields from its use in `layer.rs`). -/
structure Mesh where
  origin : Point
  buffers : Buffers
  clip_bounds : Rectangle
  style : Style
deriving DecidableEq, Repr

/-- Modelled from the spec: a raster or vector image record (`layer::Image`,
submodule not under src/; variants from its use in `layer.rs`). -/
inductive Image where
  | Raster (handle : ImageHandle) (bounds : Rectangle)
  | Vector (handle : SvgHandle) (bounds : Rectangle)
deriving DecidableEq, Repr

/-- Modelled from the spec: the rendering `Primitive` tree
(`iced_graphics::Primitive`, not under src/; the closed variant set of §3,
with the payloads used in `layer.rs`). -/
inductive Primitive where
  | None
  | Group (primitives : List Primitive)
  | Text (content : String) (bounds : Rectangle) (size : ℚ) (color : Color)
      (font : Font) (horizontal_alignment : alignment.Horizontal)
      (vertical_alignment : alignment.Vertical)
  | Quad (bounds : Rectangle) (background : Background) (border_radius : ℚ)
      (border_width : ℚ) (border_color : Color)
  | Mesh2D (buffers : Buffers) (size : Size) (style : Style)
  | Clip (bounds : Rectangle) (content : Primitive)
  | Translate (translation : Vector) (content : Primitive)
  | Scale (scale : ℚ) (content : Primitive)
  | Cached (cache : Primitive)
  | Image (handle : ImageHandle) (bounds : Rectangle)
  | Svg (handle : SvgHandle) (bounds : Rectangle)

/-- Modelled from the spec: the viewport descriptor — exposes at least the
logical width/height used to size the root and overlay layers. -/
structure Viewport where
  logical_size : Size
deriving DecidableEq, Repr

/-- A group of primitives that should be clipped together (`Layer`). -/
structure Layer where
  bounds : Rectangle
  quads : List Quad
  meshes : List Mesh
  text : List Text
  images : List Image
deriving DecidableEq, Repr

/-- `Layer::new` — a layer with the given clipping bounds and empty record
sequences. -/
def Layer.new (bounds : Rectangle) : Layer :=
  ⟨bounds, [], [], [], []⟩

/-!
## The flattening algorithm (`Layer::process_primitive`, `Layer::generate`)

The Rust code mutates a `Vec<Layer>` in place; the embedding threads the
layer list through explicitly. `Color::into_linear` (not under src/) is an
`f32` gamma curve not representable over `ℚ` and none of the claims depend
on its values, so the conversion function is passed as a parameter
`into_linear`. Indexing `layers[current_layer]` would panic in Rust when out
of range; the embedding returns the list unchanged in that (unreachable)
case, and every theorem about a reachable call supplies the index bound.
-/

mutual

/-- `Layer::process_primitive` — routes one primitive into the layer list. -/
def process_primitive (into_linear : Color → Rgba) (layers : List Layer)
    (transformation : Transformation) (primitive : Primitive)
    (current_layer : Nat) : List Layer :=
  match primitive with
  | .None => layers
  | .Group primitives =>
      process_primitives into_linear layers transformation primitives
        current_layer
  | .Text content bounds size color font horizontal_alignment
      vertical_alignment =>
      match layers[current_layer]? with
      | some layer =>
          layers.set current_layer
            { layer with
                text := layer.text ++
                  [{ content := content
                     bounds := transformation.transform_rectangle bounds
                     size := transformation.transform_scalar size
                     color := into_linear color
                     font := font
                     horizontal_alignment := horizontal_alignment
                     vertical_alignment := vertical_alignment }] }
      | none => layers
  | .Quad bounds background border_radius border_width border_color =>
      match layers[current_layer]? with
      | some layer =>
          let new_bounds := transformation.transform_rectangle bounds
          layers.set current_layer
            { layer with
                quads := layer.quads ++
                  [{ position := (new_bounds.x, new_bounds.y)
                     size := (new_bounds.width, new_bounds.height)
                     color :=
                       match background with
                       | .Color color => into_linear color
                     border_radius :=
                       transformation.transform_scalar border_radius
                     border_width :=
                       transformation.transform_scalar border_width
                     border_color := into_linear border_color }] }
      | none => layers
  | .Mesh2D buffers size style =>
      match layers[current_layer]? with
      | some layer =>
          let origin := transformation.transform_point (Point.new 0 0)
          let bounds := Rectangle.new (Point.new origin.x origin.y) size
          match layer.bounds.intersection bounds with
          | some clip_bounds =>
              layers.set current_layer
                { layer with
                    meshes := layer.meshes ++
                      [{ origin := origin
                         buffers := buffers
                         clip_bounds := clip_bounds
                         style := style }] }
          | none => layers
      | none => layers
  | .Clip bounds content =>
      match layers[current_layer]? with
      | some layer =>
          let transformed_bounds := transformation.transform_rectangle bounds
          match layer.bounds.intersection transformed_bounds with
          | some clip_bounds =>
              let clip_layer := Layer.new clip_bounds
              let layers' := layers ++ [clip_layer]
              process_primitive into_linear layers' transformation content
                (layers'.length - 1)
          | none => layers
      | none => layers
  | .Translate translation content =>
      process_primitive into_linear layers
        (transformation.translated translation.x translation.y) content
        current_layer
  | .Scale scale content =>
      process_primitive into_linear layers
        (transformation.scaled scale scale) content current_layer
  | .Cached cache =>
      process_primitive into_linear layers transformation cache current_layer
  | .Image handle bounds =>
      match layers[current_layer]? with
      | some layer =>
          layers.set current_layer
            { layer with
                images := layer.images ++
                  [Image.Raster handle
                    (transformation.transform_rectangle bounds)] }
      | none => layers
  | .Svg handle bounds =>
      match layers[current_layer]? with
      | some layer =>
          layers.set current_layer
            { layer with
                images := layer.images ++
                  [Image.Vector handle
                    (transformation.transform_rectangle bounds)] }
      | none => layers

/-- The loop of `Layer::generate` / the `Group` arm: process a sequence of
primitives in order against the same transformation and current layer. -/
def process_primitives (into_linear : Color → Rgba) (layers : List Layer)
    (transformation : Transformation) (primitives : List Primitive)
    (current_layer : Nat) : List Layer :=
  match primitives with
  | [] => layers
  | primitive :: rest =>
      process_primitives into_linear
        (process_primitive into_linear layers transformation primitive
          current_layer)
        transformation rest current_layer

end

/-- `Layer::generate` — distributes the given primitives into a list of
layers rooted at a layer covering the whole viewport. -/
def generate (into_linear : Color → Rgba) (primitives : List Primitive)
    (viewport : Viewport) : List Layer :=
  let first_layer := Layer.new (Rectangle.with_size viewport.logical_size)
  process_primitives into_linear [first_layer] Transformation.identity
    primitives 0

/-- `Layer::overlay` — builds a single diagnostic layer for the given lines
of text. `Size::INFINITY` is a pair of `f32` infinities, which `ℚ` cannot
represent; the constant is abstracted as the parameter `size_infinity` (no
claim depends on its value). The source's indexed `for` loop is modelled by
recursion carrying the running line index `i`. -/
def overlayText (size_infinity : Size) (i : Nat) :
    List String → List Text
  | [] => []
  | line :: rest =>
      let text : Text :=
        { content := line
          bounds := Rectangle.new (Point.new 11 (11 + 25 * (i : ℚ)))
            size_infinity
          color := ⟨9/10, 9/10, 9/10, 1⟩
          size := 20
          font := Font.Default
          horizontal_alignment := alignment.Horizontal.Left
          vertical_alignment := alignment.Vertical.Top }
      text ::
        { text with
            bounds := text.bounds + Vector.new (-1) (-1)
            color := ⟨0, 0, 0, 1⟩ } ::
        overlayText size_infinity (i + 1) rest

/-- `Layer::overlay` (see `overlayText` for the loop body). -/
def overlay (size_infinity : Size) (lines : List String)
    (viewport : Viewport) : Layer :=
  { Layer.new (Rectangle.with_size viewport.logical_size) with
      text := overlayText size_infinity 0 lines }

/-!
## Structural invariants of one processing step

`Layer.Grows old new` says the layer kept its bounds and each of its four
record sequences was only extended at the end. `StepInv layers result i`
says one processing step with current layer `i` turned `layers` into
`result` by at most appending records to layer `i` and appending whole new
layers at the end of the list.
-/

/-- The layer kept its bounds and its record sequences were only extended
at the end. -/
def Layer.Grows (old new : Layer) : Prop :=
  new.bounds = old.bounds ∧
  (∃ q, new.quads = old.quads ++ q) ∧
  (∃ m, new.meshes = old.meshes ++ m) ∧
  (∃ t, new.text = old.text ++ t) ∧
  (∃ im, new.images = old.images ++ im)

theorem Layer.grows_rfl (l : Layer) : Layer.Grows l l :=
  ⟨rfl, ⟨[], by simp⟩, ⟨[], by simp⟩, ⟨[], by simp⟩, ⟨[], by simp⟩⟩

theorem Layer.grows_trans {a b c : Layer} (h₁ : Layer.Grows a b)
    (h₂ : Layer.Grows b c) : Layer.Grows a c := by
  obtain ⟨hb₁, ⟨q₁, hq₁⟩, ⟨m₁, hm₁⟩, ⟨t₁, ht₁⟩, ⟨i₁, hi₁⟩⟩ := h₁
  obtain ⟨hb₂, ⟨q₂, hq₂⟩, ⟨m₂, hm₂⟩, ⟨t₂, ht₂⟩, ⟨i₂, hi₂⟩⟩ := h₂
  exact ⟨hb₂.trans hb₁,
    ⟨q₁ ++ q₂, by simp [hq₂, hq₁]⟩, ⟨m₁ ++ m₂, by simp [hm₂, hm₁]⟩,
    ⟨t₁ ++ t₂, by simp [ht₂, ht₁]⟩, ⟨i₁ ++ i₂, by simp [hi₂, hi₁]⟩⟩

/-- One processing step with current layer `i`: the list only gains layers
at the end, every pre-existing layer other than `i` is untouched, and layer
`i` at most grows. -/
def StepInv (layers result : List Layer) (i : Nat) : Prop :=
  layers.length ≤ result.length ∧
  ∀ j, j < layers.length → ∃ old new,
    layers[j]? = some old ∧ result[j]? = some new ∧ old.Grows new ∧
      (j ≠ i → new = old)

theorem stepInv_rfl (layers : List Layer) (i : Nat) :
    StepInv layers layers i := by
  refine ⟨le_rfl, fun j hj => ?_⟩
  obtain ⟨l, hl⟩ : ∃ l, layers[j]? = some l :=
    ⟨layers[j], List.getElem?_eq_getElem hj⟩
  exact ⟨l, l, hl, hl, Layer.grows_rfl l, fun _ => rfl⟩

theorem stepInv_trans {l₁ l₂ l₃ : List Layer} {i : Nat}
    (h₁ : StepInv l₁ l₂ i) (h₂ : StepInv l₂ l₃ i) : StepInv l₁ l₃ i := by
  obtain ⟨hlen₁, h₁⟩ := h₁
  obtain ⟨hlen₂, h₂⟩ := h₂
  refine ⟨hlen₁.trans hlen₂, fun j hj => ?_⟩
  obtain ⟨a, b, ha, hb, hab, heqab⟩ := h₁ j hj
  obtain ⟨b', c, hb', hc, hbc, heqbc⟩ := h₂ j (hj.trans_le hlen₁)
  rw [hb] at hb'
  obtain rfl : b = b' := by injection hb'
  exact ⟨a, c, ha, hc, Layer.grows_trans hab hbc,
    fun hne => (heqbc hne).trans (heqab hne)⟩

/-- If a step left every pre-existing index untouched, the invariant holds
for any current index. -/
theorem stepInv_of_untouched {layers result : List Layer} {i : Nat}
    (hlen : layers.length ≤ result.length)
    (h : ∀ j, j < layers.length → result[j]? = layers[j]?) :
    StepInv layers result i := by
  refine ⟨hlen, fun j hj => ?_⟩
  obtain ⟨l, hl⟩ : ∃ l, layers[j]? = some l :=
    ⟨layers[j], List.getElem?_eq_getElem hj⟩
  exact ⟨l, l, hl, (h j hj).trans hl, Layer.grows_rfl l, fun _ => rfl⟩

/-- Replacing layer `i` by a grown version satisfies the invariant. -/
theorem stepInv_set {layers : List Layer} {i : Nat} {layer layer' : Layer}
    (hi : layers[i]? = some layer) (hgrow : layer.Grows layer') :
    StepInv layers (layers.set i layer') i := by
  refine ⟨by simp, fun j hj => ?_⟩
  obtain ⟨l, hl⟩ : ∃ l, layers[j]? = some l :=
    ⟨layers[j], List.getElem?_eq_getElem hj⟩
  by_cases hji : j = i
  · subst hji
    rw [hi] at hl
    obtain rfl : layer = l := by injection hl
    exact ⟨layer, layer', hi, List.getElem?_set_eq_of_lt _ hj,
      hgrow, fun hne => absurd rfl hne⟩
  · exact ⟨l, l, hl, (List.getElem?_set_ne (fun h => hji h.symm)).trans hl,
      Layer.grows_rfl l, fun _ => rfl⟩

/-- Appending fresh layers at the end satisfies the invariant. -/
theorem stepInv_append (layers extra : List Layer) (i : Nat) :
    StepInv layers (layers ++ extra) i :=
  stepInv_of_untouched (by simp)
    (fun j hj => List.getElem?_append_left hj)

mutual

/-- `process_primitive` obeys the step invariant: it only appends records to
the current layer and whole layers at the end of the list. -/
theorem processPrimitive_stepInv (into_linear : Color → Rgba)
    (layers : List Layer) (transformation : Transformation) (p : Primitive)
    (i : Nat) :
    StepInv layers
      (process_primitive into_linear layers transformation p i) i := by
  cases p with
  | None => exact stepInv_rfl layers i
  | Group ps =>
      rw [process_primitive]
      exact processPrimitives_stepInv into_linear layers transformation ps i
  | Text content bounds size color font ha va =>
      cases hli : layers[i]? with
      | some layer =>
          simp only [process_primitive, hli]
          exact stepInv_set hli ⟨rfl, ⟨[], by simp⟩, ⟨[], by simp⟩,
            ⟨_, rfl⟩, ⟨[], by simp⟩⟩
      | none =>
          simp only [process_primitive, hli]
          exact stepInv_rfl layers i
  | Quad bounds background border_radius border_width border_color =>
      cases hli : layers[i]? with
      | some layer =>
          simp only [process_primitive, hli]
          exact stepInv_set hli ⟨rfl, ⟨_, rfl⟩, ⟨[], by simp⟩,
            ⟨[], by simp⟩, ⟨[], by simp⟩⟩
      | none =>
          simp only [process_primitive, hli]
          exact stepInv_rfl layers i
  | Mesh2D buffers size style =>
      cases hli : layers[i]? with
      | some layer =>
          simp only [process_primitive, hli]
          split
          · exact stepInv_set hli ⟨rfl, ⟨[], by simp⟩, ⟨_, rfl⟩,
              ⟨[], by simp⟩, ⟨[], by simp⟩⟩
          · exact stepInv_rfl layers i
      | none =>
          simp only [process_primitive, hli]
          exact stepInv_rfl layers i
  | Clip bounds content =>
      cases hli : layers[i]? with
      | some layer =>
          simp only [process_primitive, hli]
          split
          · rename_i clip_bounds hint
            have IH := processPrimitive_stepInv into_linear
              (layers ++ [Layer.new clip_bounds]) transformation content
              ((layers ++ [Layer.new clip_bounds]).length - 1)
            refine stepInv_of_untouched (le_trans (by simp) IH.1)
              (fun j hj => ?_)
            obtain ⟨old, new, hold, hnew, _, heq⟩ := IH.2 j
              (by simp only [List.length_append, List.length_singleton]; omega)
            have hjne : j ≠ (layers ++ [Layer.new clip_bounds]).length - 1 := by
              simp only [List.length_append, List.length_singleton]
              omega
            rw [hnew, heq hjne, ← hold]
            exact List.getElem?_append_left hj
          · exact stepInv_rfl layers i
      | none =>
          simp only [process_primitive, hli]
          exact stepInv_rfl layers i
  | Translate translation content =>
      rw [process_primitive]
      exact processPrimitive_stepInv into_linear layers _ content i
  | Scale scale content =>
      rw [process_primitive]
      exact processPrimitive_stepInv into_linear layers _ content i
  | Cached cache =>
      rw [process_primitive]
      exact processPrimitive_stepInv into_linear layers transformation cache i
  | Image handle bounds =>
      cases hli : layers[i]? with
      | some layer =>
          simp only [process_primitive, hli]
          exact stepInv_set hli ⟨rfl, ⟨[], by simp⟩, ⟨[], by simp⟩,
            ⟨[], by simp⟩, ⟨_, rfl⟩⟩
      | none =>
          simp only [process_primitive, hli]
          exact stepInv_rfl layers i
  | Svg handle bounds =>
      cases hli : layers[i]? with
      | some layer =>
          simp only [process_primitive, hli]
          exact stepInv_set hli ⟨rfl, ⟨[], by simp⟩, ⟨[], by simp⟩,
            ⟨[], by simp⟩, ⟨_, rfl⟩⟩
      | none =>
          simp only [process_primitive, hli]
          exact stepInv_rfl layers i

/-- `process_primitives` obeys the step invariant. -/
theorem processPrimitives_stepInv (into_linear : Color → Rgba)
    (layers : List Layer) (transformation : Transformation)
    (ps : List Primitive) (i : Nat) :
    StepInv layers
      (process_primitives into_linear layers transformation ps i) i := by
  cases ps with
  | nil => exact stepInv_rfl layers i
  | cons p rest =>
      rw [process_primitives]
      exact stepInv_trans
        (processPrimitive_stepInv into_linear layers transformation p i)
        (processPrimitives_stepInv into_linear _ transformation rest i)

end

/-!
## Unfolding equations and identity-transform facts
-/

theorem identity_transform_point (p : Point) :
    Transformation.identity.transform_point p = p := by
  simp [Transformation.transform_point, Transformation.identity,
    Mat4.transformPoint3, Mat4.identityMat]

theorem identity_transform_vector (v : Vector) :
    Transformation.identity.transform_vector v = v := by
  simp [Transformation.transform_vector, Transformation.identity,
    Mat4.transformVector3, Mat4.identityMat]

theorem identity_transform_scalar (s : ℚ) :
    Transformation.identity.transform_scalar s = s := by
  simp [Transformation.transform_scalar, identity_transform_vector]

theorem identity_transform_rectangle (r : Rectangle) :
    Transformation.identity.transform_rectangle r = r := by
  simp [Transformation.transform_rectangle, identity_transform_point]

theorem processPrimitives_nil (il : Color → Rgba) (layers : List Layer)
    (T : Transformation) (i : Nat) :
    process_primitives il layers T [] i = layers := by
  rw [process_primitives]

theorem processPrimitives_cons (il : Color → Rgba) (layers : List Layer)
    (T : Transformation) (p : Primitive) (rest : List Primitive) (i : Nat) :
    process_primitives il layers T (p :: rest) i =
      process_primitives il (process_primitive il layers T p i) T rest i := by
  rw [process_primitives]

theorem processPrimitives_append (il : Color → Rgba) (layers : List Layer)
    (T : Transformation) (ps qs : List Primitive) (i : Nat) :
    process_primitives il layers T (ps ++ qs) i =
      process_primitives il (process_primitives il layers T ps i) T qs i := by
  induction ps generalizing layers with
  | nil => rw [processPrimitives_nil, List.nil_append]
  | cons p rest ih =>
      rw [List.cons_append, processPrimitives_cons, processPrimitives_cons, ih]

theorem clip_eq_some (il : Color → Rgba) (layers : List Layer)
    (T : Transformation) (bounds : Rectangle) (content : Primitive) (i : Nat)
    (layer : Layer) (r : Rectangle) (hli : layers[i]? = some layer)
    (hint : layer.bounds.intersection (T.transform_rectangle bounds) = some r) :
    process_primitive il layers T (.Clip bounds content) i =
      process_primitive il (layers ++ [Layer.new r]) T content layers.length := by
  have hlen : (layers ++ [Layer.new r]).length - 1 = layers.length := by simp
  simp only [process_primitive, hli, hint, hlen]

theorem clip_eq_none (il : Color → Rgba) (layers : List Layer)
    (T : Transformation) (bounds : Rectangle) (content : Primitive) (i : Nat)
    (layer : Layer) (hli : layers[i]? = some layer)
    (hint : layer.bounds.intersection (T.transform_rectangle bounds) = none) :
    process_primitive il layers T (.Clip bounds content) i = layers := by
  simp only [process_primitive, hli, hint]

theorem text_eq (il : Color → Rgba) (layers : List Layer)
    (T : Transformation) (content : String) (bounds : Rectangle) (size : ℚ)
    (color : Color) (font : Font) (ha : alignment.Horizontal)
    (va : alignment.Vertical) (i : Nat) (layer : Layer)
    (hli : layers[i]? = some layer) :
    process_primitive il layers T (.Text content bounds size color font ha va)
        i =
      layers.set i
        { layer with
            text := layer.text ++
              [{ content := content
                 bounds := T.transform_rectangle bounds
                 size := T.transform_scalar size
                 color := il color
                 font := font
                 horizontal_alignment := ha
                 vertical_alignment := va }] } := by
  simp only [process_primitive, hli]

theorem quad_eq (il : Color → Rgba) (layers : List Layer)
    (T : Transformation) (bounds : Rectangle) (background : Background)
    (border_radius border_width : ℚ) (border_color : Color) (i : Nat)
    (layer : Layer) (hli : layers[i]? = some layer) :
    process_primitive il layers T
        (.Quad bounds background border_radius border_width border_color) i =
      layers.set i
        { layer with
            quads := layer.quads ++
              [{ position := ((T.transform_rectangle bounds).x,
                   (T.transform_rectangle bounds).y)
                 size := ((T.transform_rectangle bounds).width,
                   (T.transform_rectangle bounds).height)
                 color :=
                   match background with
                   | .Color color => il color
                 border_radius := T.transform_scalar border_radius
                 border_width := T.transform_scalar border_width
                 border_color := il border_color }] } := by
  simp only [process_primitive, hli]

theorem image_eq (il : Color → Rgba) (layers : List Layer)
    (T : Transformation) (handle : ImageHandle) (bounds : Rectangle) (i : Nat)
    (layer : Layer) (hli : layers[i]? = some layer) :
    process_primitive il layers T (.Image handle bounds) i =
      layers.set i
        { layer with
            images := layer.images ++
              [Image.Raster handle (T.transform_rectangle bounds)] } := by
  simp only [process_primitive, hli]

theorem svg_eq (il : Color → Rgba) (layers : List Layer)
    (T : Transformation) (handle : SvgHandle) (bounds : Rectangle) (i : Nat)
    (layer : Layer) (hli : layers[i]? = some layer) :
    process_primitive il layers T (.Svg handle bounds) i =
      layers.set i
        { layer with
            images := layer.images ++
              [Image.Vector handle (T.transform_rectangle bounds)] } := by
  simp only [process_primitive, hli]

theorem mesh_eq_some (il : Color → Rgba) (layers : List Layer)
    (T : Transformation) (buffers : Buffers) (size : Size) (style : Style)
    (i : Nat) (layer : Layer) (clip_bounds : Rectangle)
    (hli : layers[i]? = some layer)
    (hint : layer.bounds.intersection
        (Rectangle.new
          (Point.new (T.transform_point (Point.new 0 0)).x
            (T.transform_point (Point.new 0 0)).y)
          size) = some clip_bounds) :
    process_primitive il layers T (.Mesh2D buffers size style) i =
      layers.set i
        { layer with
            meshes := layer.meshes ++
              [{ origin := T.transform_point (Point.new 0 0)
                 buffers := buffers
                 clip_bounds := clip_bounds
                 style := style }] } := by
  simp only [process_primitive, hli, hint]

theorem mesh_eq_none (il : Color → Rgba) (layers : List Layer)
    (T : Transformation) (buffers : Buffers) (size : Size) (style : Style)
    (i : Nat) (layer : Layer) (hli : layers[i]? = some layer)
    (hint : layer.bounds.intersection
        (Rectangle.new
          (Point.new (T.transform_point (Point.new 0 0)).x
            (T.transform_point (Point.new 0 0)).y)
          size) = none) :
    process_primitive il layers T (.Mesh2D buffers size style) i = layers := by
  simp only [process_primitive, hli, hint]

theorem generate_eq (il : Color → Rgba) (ps : List Primitive) (vp : Viewport) :
    generate il ps vp =
      process_primitives il [Layer.new (Rectangle.with_size vp.logical_size)]
        Transformation.identity ps 0 := rfl

/-!
## Containment of layer bounds
-/

/-- The region of `a` lies inside the region of `b`. -/
def Rectangle.ContainedIn (a b : Rectangle) : Prop :=
  b.x ≤ a.x ∧ b.y ≤ a.y ∧ a.x + a.width ≤ b.x + b.width ∧
    a.y + a.height ≤ b.y + b.height

theorem Rectangle.containedIn_rfl (a : Rectangle) : a.ContainedIn a :=
  ⟨le_rfl, le_rfl, le_rfl, le_rfl⟩

theorem Rectangle.containedIn_trans {a b c : Rectangle}
    (h₁ : a.ContainedIn b) (h₂ : b.ContainedIn c) : a.ContainedIn c := by
  obtain ⟨hx₁, hy₁, hw₁, hh₁⟩ := h₁
  obtain ⟨hx₂, hy₂, hw₂, hh₂⟩ := h₂
  exact ⟨hx₂.trans hx₁, hy₂.trans hy₁, hw₁.trans hw₂, hh₁.trans hh₂⟩

/-- A non-empty intersection lies inside both arguments. -/
theorem Rectangle.intersection_containedIn {a b r : Rectangle}
    (h : a.intersection b = some r) : r.ContainedIn a ∧ r.ContainedIn b := by
  simp only [Rectangle.intersection] at h
  split at h
  · injection h with h
    subst h
    unfold Rectangle.ContainedIn
    dsimp only
    refine ⟨⟨le_max_left _ _, le_max_left _ _, ?_, ?_⟩,
      ⟨le_max_right _ _, le_max_right _ _, ?_, ?_⟩⟩
    · have := min_le_left (a.x + a.width) (b.x + b.width); linarith
    · have := min_le_left (a.y + a.height) (b.y + b.height); linarith
    · have := min_le_right (a.x + a.width) (b.x + b.width); linarith
    · have := min_le_right (a.y + a.height) (b.y + b.height); linarith
  · simp at h

theorem boundsInv_set {layers : List Layer} {i : Nat} {layer layer' : Layer}
    {V : Rectangle} (hall : ∀ l ∈ layers, l.bounds.ContainedIn V)
    (hli : layers[i]? = some layer) (hb : layer'.bounds = layer.bounds) :
    ∀ l ∈ layers.set i layer', l.bounds.ContainedIn V := by
  intro l hl
  rcases List.mem_or_eq_of_mem_set hl with h | rfl
  · exact hall l h
  · rw [hb]
    exact hall layer (List.getElem?_mem hli)

mutual

/-- Bounds containment is preserved: if every layer's bounds lies inside
`V`, the same holds after processing any primitive. -/
theorem processPrimitive_boundsInv (il : Color → Rgba) (layers : List Layer)
    (T : Transformation) (p : Primitive) (i : Nat) (V : Rectangle)
    (hall : ∀ l ∈ layers, l.bounds.ContainedIn V) :
    ∀ l ∈ process_primitive il layers T p i, l.bounds.ContainedIn V := by
  cases p with
  | None => simpa [process_primitive] using hall
  | Group ps =>
      rw [process_primitive]
      exact processPrimitives_boundsInv il layers T ps i V hall
  | Text content bounds size color font ha va =>
      cases hli : layers[i]? with
      | some layer =>
          simp only [process_primitive, hli]
          exact boundsInv_set hall hli rfl
      | none => simpa [process_primitive, hli] using hall
  | Quad bounds background border_radius border_width border_color =>
      cases hli : layers[i]? with
      | some layer =>
          simp only [process_primitive, hli]
          exact boundsInv_set hall hli rfl
      | none => simpa [process_primitive, hli] using hall
  | Mesh2D buffers size style =>
      cases hli : layers[i]? with
      | some layer =>
          simp only [process_primitive, hli]
          split
          · exact boundsInv_set hall hli rfl
          · exact hall
      | none => simpa [process_primitive, hli] using hall
  | Clip bounds content =>
      cases hli : layers[i]? with
      | some layer =>
          simp only [process_primitive, hli]
          split
          · rename_i clip_bounds hint
            refine processPrimitive_boundsInv il _ T content _ V ?_
            intro l hl
            rcases List.mem_append.mp hl with h | h
            · exact hall l h
            · have hcb : clip_bounds.ContainedIn layer.bounds :=
                (Rectangle.intersection_containedIn hint).1
              have hlay : layer.bounds.ContainedIn V :=
                hall layer (List.getElem?_mem hli)
              rcases List.mem_singleton.mp h with rfl
              exact Rectangle.containedIn_trans hcb hlay
          · exact hall
      | none => simpa [process_primitive, hli] using hall
  | Translate translation content =>
      rw [process_primitive]
      exact processPrimitive_boundsInv il layers _ content i V hall
  | Scale scale content =>
      rw [process_primitive]
      exact processPrimitive_boundsInv il layers _ content i V hall
  | Cached cache =>
      rw [process_primitive]
      exact processPrimitive_boundsInv il layers T cache i V hall
  | Image handle bounds =>
      cases hli : layers[i]? with
      | some layer =>
          simp only [process_primitive, hli]
          exact boundsInv_set hall hli rfl
      | none => simpa [process_primitive, hli] using hall
  | Svg handle bounds =>
      cases hli : layers[i]? with
      | some layer =>
          simp only [process_primitive, hli]
          exact boundsInv_set hall hli rfl
      | none => simpa [process_primitive, hli] using hall

/-- Bounds containment is preserved by processing a list of primitives. -/
theorem processPrimitives_boundsInv (il : Color → Rgba) (layers : List Layer)
    (T : Transformation) (ps : List Primitive) (i : Nat) (V : Rectangle)
    (hall : ∀ l ∈ layers, l.bounds.ContainedIn V) :
    ∀ l ∈ process_primitives il layers T ps i, l.bounds.ContainedIn V := by
  cases ps with
  | nil => simpa [process_primitives] using hall
  | cons p rest =>
      rw [process_primitives]
      exact processPrimitives_boundsInv il _ T rest i V
        (processPrimitive_boundsInv il layers T p i V hall)

end

/-- A sample gamma-to-linear conversion used to instantiate concrete runs
(the claims hold for every conversion function). -/
def sampleIntoLinear : Color → Rgba := fun c => ⟨c.r, c.g, c.b, c.a⟩

theorem Mat4.mul_entrywise (a b : Mat4) : a * b = Mat4.mul a b := rfl

theorem Vector.add_def (a b : Vector) : a + b = ⟨a.x + b.x, a.y + b.y⟩ := rfl

theorem Vector.mul_scalar_def (v : Vector) (k : ℚ) :
    v * k = ⟨v.x * k, v.y * k⟩ := rfl

theorem Point.add_vector_eq (p : Point) (v : Vector) :
    p + v = ⟨p.x + v.x, p.y + v.y⟩ := rfl

theorem Rectangle.add_vector_shift (r : Rectangle) (v : Vector) :
    r + v = ⟨r.x + v.x, r.y + v.y, r.width, r.height⟩ := rfl

/-!
## Claims
-/

/-- **C7, counterexample.** `t.scaled(sx, sy)` is *not* equal, as a
`Transformation` value, to `Transformation::scale(sx, sy) ∘ t`: at
`t = identity`, `sx = sy = 2`, the two matrices differ in the z-scale entry
(`scaled` composes `Mat4::from_scale(Vec3::new(x, y, 0.0))`, z factor `0`,
while `scale` uses z factor `1`). -/
theorem scaled_ne_scale_comp :
    Transformation.identity.scaled 2 2 ≠
      Transformation.scale 2 2 * Transformation.identity := by
  intro h
  have h22 := congrArg (fun t => t.mat.m22) h
  simp only [Transformation.scaled, Transformation.scale,
    Transformation.identity, Transformation.mul_def, Mat4.fromScale,
    Mat4.identityMat, Mat4.mul_entrywise, Mat4.mul] at h22
  norm_num at h22

/-- **C7, amended.** `t.scaled(sx, sy)` equals the left composition
`from_scale(sx, sy, 0) · t` — a scale matrix whose z factor is `0` rather
than the `1` of `Transformation::scale` — so it differs from
`scale(sx, sy) ∘ t` as a `Transformation` value, but agrees with it in its
action on every 2D point and vector. -/
theorem scaled_left_composition :
    (∀ (t : Transformation) (sx sy : ℚ),
      t.scaled sx sy = ⟨Mat4.fromScale sx sy 0 * t.mat⟩) ∧
    (∀ (t : Transformation) (sx sy : ℚ) (p : Point),
      (t.scaled sx sy).transform_point p =
        (Transformation.scale sx sy * t).transform_point p) ∧
    (∀ (t : Transformation) (sx sy : ℚ) (v : Vector),
      (t.scaled sx sy).transform_vector v =
        (Transformation.scale sx sy * t).transform_vector v) := by
  refine ⟨fun t sx sy => rfl, fun t sx sy p => ?_, fun t sx sy v => ?_⟩
  · simp only [Transformation.scaled, Transformation.scale,
      Transformation.transform_point, Transformation.mul_def,
      Mat4.transformPoint3, Mat4.fromScale, Mat4.mul_entrywise, Mat4.mul]
  · simp only [Transformation.scaled, Transformation.scale,
      Transformation.transform_vector, Transformation.mul_def,
      Mat4.transformVector3, Mat4.fromScale, Mat4.mul_entrywise, Mat4.mul]

theorem overlayText_length (s : Size) (i : Nat) (lines : List String) :
    (overlayText s i lines).length = 2 * lines.length := by
  induction lines generalizing i with
  | nil => rfl
  | cons l rest ih =>
      simp only [overlayText, List.length_cons, ih, List.length_nil]
      omega

theorem overlayText_get (s : Size) (lines : List String) (i k : Nat)
    (line : String) (h : lines[k]? = some line) :
    ∃ fg : Text,
      (overlayText s i lines)[2 * k]? = some fg ∧
      (overlayText s i lines)[2 * k + 1]? =
        some { fg with color := ⟨0, 0, 0, 1⟩, bounds := fg.bounds + Vector.new (-1) (-1) } ∧
      fg.content = line ∧ fg.color = ⟨9/10, 9/10, 9/10, 1⟩ := by
  induction lines generalizing i k with
  | nil => simp at h
  | cons l rest ih =>
      cases k with
      | zero =>
          simp only [List.getElem?_cons_zero, Option.some.injEq] at h
          subst h
          refine ⟨{ content := l
                    bounds := Rectangle.new (Point.new 11 (11 + 25 * (i : ℚ))) s
                    color := ⟨9/10, 9/10, 9/10, 1⟩
                    size := 20
                    font := Font.Default
                    horizontal_alignment := alignment.Horizontal.Left
                    vertical_alignment := alignment.Vertical.Top }, ?_, ?_, rfl, rfl⟩
          · simp [overlayText]
          · simp [overlayText]
      | succ k =>
          have h' : rest[k]? = some line := by simpa using h
          obtain ⟨fg, hfg1, hfg2, hc, hcol⟩ := ih (i + 1) k h'
          have h2 : 2 * (k + 1) = 2 * k + 1 + 1 := by ring
          have h3 : 2 * (k + 1) + 1 = 2 * k + 1 + 1 + 1 := by ring
          refine ⟨fg, ?_, ?_, hc, hcol⟩
          · simp only [overlayText, h2, List.getElem?_cons_succ]
            exact hfg1
          · simp only [overlayText, h3, List.getElem?_cons_succ]
            exact hfg2

/-- **C6, counterexample.** The claimed order "a dark copy then a light
copy" does not hold: for `overlay(["fps: 60"], 300×300 viewport)` the first
emitted text record is the light `0.9`-grey foreground and the second is
the black shadow (the source pushes `text` first and the dark copy second),
and the two colors differ. -/
theorem overlay_emits_light_copy_first :
    ((overlay ⟨0, 0⟩ ["fps: 60"] ⟨⟨300, 300⟩⟩).text.map Text.color =
      [⟨9/10, 9/10, 9/10, 1⟩, ⟨0, 0, 0, 1⟩]) ∧
    (Rgba.mk (9/10) (9/10) (9/10) 1 ≠ ⟨0, 0, 0, 1⟩) := by
  constructor
  · rfl
  · intro h
    have := congrArg Rgba.r h
    norm_num at this

/-- **C6, amended.** `overlay(lines, viewport)` returns a single layer whose
bounds equal the viewport's logical size, with empty quad/mesh/image
sequences and exactly `2·n` text records; for each line it emits two text
records at a one-pixel offset — a *light* copy then a *dark* copy — the
shadow (dark) record differing from the foreground (light) one only in
color and a `(-1, -1)` positional offset. (`Size::INFINITY`, an `f32`
infinity not representable over `ℚ`, enters only as the abstracted
parameter `size_infinity`; the statement holds for every value of it.) -/
theorem overlay_two_records_per_line :
    ∀ (size_infinity : Size) (lines : List String) (vp : Viewport),
      (overlay size_infinity lines vp).bounds =
        Rectangle.with_size vp.logical_size ∧
      (overlay size_infinity lines vp).quads = [] ∧
      (overlay size_infinity lines vp).meshes = [] ∧
      (overlay size_infinity lines vp).images = [] ∧
      (overlay size_infinity lines vp).text.length = 2 * lines.length ∧
      (∀ k line, lines[k]? = some line →
        ∃ fg : Text,
          (overlay size_infinity lines vp).text[2 * k]? = some fg ∧
          (overlay size_infinity lines vp).text[2 * k + 1]? =
            some { fg with color := ⟨0, 0, 0, 1⟩, bounds := fg.bounds + Vector.new (-1) (-1) } ∧
          fg.content = line ∧ fg.color = ⟨9/10, 9/10, 9/10, 1⟩) := by
  intro s lines vp
  exact ⟨rfl, rfl, rfl, rfl, overlayText_length s 0 lines,
    fun k line h => overlayText_get s lines 0 k line h⟩

/-- **C6, witness.** The amended claim instantiated at `["fps: 60"]` and a
`300×300` viewport. -/
theorem overlay_two_records_per_line_witness :
    ∃ fg : Text,
      (overlay ⟨0, 0⟩ ["fps: 60"] ⟨⟨300, 300⟩⟩).text[2 * 0]? = some fg ∧
      (overlay ⟨0, 0⟩ ["fps: 60"] ⟨⟨300, 300⟩⟩).text[2 * 0 + 1]? =
        some { fg with color := ⟨0, 0, 0, 1⟩, bounds := fg.bounds + Vector.new (-1) (-1) } ∧
      fg.content = "fps: 60" ∧ fg.color = ⟨9/10, 9/10, 9/10, 1⟩ :=
  (overlay_two_records_per_line ⟨0, 0⟩ ["fps: 60"] ⟨⟨300, 300⟩⟩).2.2.2.2.2
    0 "fps: 60" rfl

/-- **C9.** For a `TranslateScale` with scale `s` and translation `tr`:
`transform_scalar(x)` is exactly `x · s` (translation ignored, no
approximation), and the constructors compose on the left:
`t.scaled(k).transform_point(p) = k · t.transform_point(p)` and
`t.translated(v).transform_point(p) = t.transform_point(p) + v`. -/
theorem translateScale_exact :
    (∀ (t : TranslateScale) (x : ℚ), t.transform_scalar x = x * t.scale) ∧
    (∀ (t : TranslateScale) (k : ℚ) (p : Point),
      (t.scaled k).transform_point p =
        Point.new (k * (t.transform_point p).x)
          (k * (t.transform_point p).y)) ∧
    (∀ (t : TranslateScale) (v : Vector) (p : Point),
      (t.translated v).transform_point p = t.transform_point p + v) := by
  refine ⟨fun t x => rfl, fun t k p => ?_, fun t v p => ?_⟩
  · simp only [TranslateScale.scaled, TranslateScale.transform_point,
      Point.new, Point.add_vector_eq, Vector.mul_scalar_def]
    exact congrArg₂ Point.mk (by ring) (by ring)
  · simp only [TranslateScale.translated, TranslateScale.transform_point,
      Point.new, Point.add_vector_eq, Vector.add_def]
    exact congrArg₂ Point.mk (by ring) (by ring)

/-- **C1.** Processing `Clip{bounds, content}` with transform `T` at current
layer `i`, when the `T`-transformed bounds intersect layer `i`'s bounds:
exactly one new layer, whose bounds equal the intersection, is appended at
the end of the list, and `content` is processed with the same `T` and
`current_layer` equal to the new layer's index; consequently, for a `Clip`
nested in a `Clip` at the root, two new layers appear in pre-order creation
sequence, the inner one's bounds being the intersection of the root viewport
rectangle, the outer clip bounds and the inner clip bounds. -/
theorem clip_nonempty_appends :
    (∀ (il : Color → Rgba) (layers : List Layer) (T : Transformation)
        (bounds : Rectangle) (content : Primitive) (i : Nat) (layer : Layer)
        (r : Rectangle),
      layers[i]? = some layer →
      layer.bounds.intersection (T.transform_rectangle bounds) = some r →
      process_primitive il layers T (.Clip bounds content) i =
        process_primitive il (layers ++ [Layer.new r]) T content
          layers.length) ∧
    (∀ (il : Color → Rgba) (vp : Viewport) (outer inner : Rectangle)
        (c : Primitive) (r1 r2 : Rectangle),
      (Rectangle.with_size vp.logical_size).intersection outer = some r1 →
      r1.intersection inner = some r2 →
      ∃ l1 l2,
        (generate il [.Clip outer (.Clip inner c)] vp)[1]? = some l1 ∧
        (generate il [.Clip outer (.Clip inner c)] vp)[2]? = some l2 ∧
        l1.bounds = r1 ∧ l2.bounds = r2) := by
  constructor
  · exact clip_eq_some
  · intro il vp outer inner c r1 r2 h1 h2
    have e0 : generate il [.Clip outer (.Clip inner c)] vp =
        process_primitive il [Layer.new (Rectangle.with_size vp.logical_size)]
          Transformation.identity (.Clip outer (.Clip inner c)) 0 := by
      rw [generate_eq, processPrimitives_cons, processPrimitives_nil]
    have e1 := clip_eq_some il
      [Layer.new (Rectangle.with_size vp.logical_size)]
      Transformation.identity outer (.Clip inner c) 0
      (Layer.new (Rectangle.with_size vp.logical_size)) r1 rfl
      (by rw [identity_transform_rectangle]; exact h1)
    have e2 := clip_eq_some il
      [Layer.new (Rectangle.with_size vp.logical_size), Layer.new r1]
      Transformation.identity inner c 1 (Layer.new r1) r2 rfl
      (by rw [identity_transform_rectangle]; exact h2)
    simp only [List.cons_append, List.nil_append, List.length_cons,
      List.length_nil, List.length_singleton, Nat.zero_add,
      Nat.reduceAdd] at e1 e2
    have etotal := e0.trans (e1.trans e2)
    obtain ⟨hlen, hstep⟩ := processPrimitive_stepInv il
      [Layer.new (Rectangle.with_size vp.logical_size), Layer.new r1,
        Layer.new r2] Transformation.identity c 2
    obtain ⟨o1, n1, ho1, hn1, hg1, he1⟩ := hstep 1 (by norm_num)
    obtain ⟨o2, n2, ho2, hn2, hg2, _⟩ := hstep 2 (by norm_num)
    simp only [List.getElem?_cons_succ, List.getElem?_cons_zero,
      Option.some.injEq] at ho1 ho2
    refine ⟨n1, n2, ?_, ?_, ?_, ?_⟩
    · rw [etotal]; exact hn1
    · rw [etotal]; exact hn2
    · rw [he1 (by norm_num), ← ho1]
      rfl
    · rw [hg2.1, ← ho2]
      rfl

/-- **C1, witness.** The nested-clip consequence instantiated: viewport
`300×300`, outer clip `(0,0,100,100)`, inner clip `(50,50,100,100)`. -/
theorem clip_nonempty_appends_witness :
    ∃ l1 l2,
      (generate sampleIntoLinear
        [.Clip ⟨0, 0, 100, 100⟩ (.Clip ⟨50, 50, 100, 100⟩ .None)]
        ⟨⟨300, 300⟩⟩)[1]? = some l1 ∧
      (generate sampleIntoLinear
        [.Clip ⟨0, 0, 100, 100⟩ (.Clip ⟨50, 50, 100, 100⟩ .None)]
        ⟨⟨300, 300⟩⟩)[2]? = some l2 ∧
      l1.bounds = ⟨0, 0, 100, 100⟩ ∧ l2.bounds = ⟨50, 50, 50, 50⟩ :=
  clip_nonempty_appends.2 sampleIntoLinear ⟨⟨300, 300⟩⟩ ⟨0, 0, 100, 100⟩
    ⟨50, 50, 100, 100⟩ .None ⟨0, 0, 100, 100⟩ ⟨50, 50, 50, 50⟩
    (by norm_num [Rectangle.intersection, Rectangle.with_size])
    (by norm_num [Rectangle.intersection])

/-- **C2.** Processing `Clip{bounds, content}` whose transformed bounds do
not intersect the current layer's bounds creates no layer, never visits the
content subtree, and leaves the entire layer list exactly as it was; in
particular a `Clip{(500,500,10,10), ...}` against a `300×300` viewport
yields only the untouched root layer, whatever the content is. -/
theorem clip_empty_prunes :
    (∀ (il : Color → Rgba) (layers : List Layer) (T : Transformation)
        (bounds : Rectangle) (content : Primitive) (i : Nat) (layer : Layer),
      layers[i]? = some layer →
      layer.bounds.intersection (T.transform_rectangle bounds) = none →
      process_primitive il layers T (.Clip bounds content) i = layers) ∧
    (∀ (il : Color → Rgba) (content : Primitive),
      generate il [.Clip ⟨500, 500, 10, 10⟩ content] ⟨⟨300, 300⟩⟩ =
        [Layer.new ⟨0, 0, 300, 300⟩]) := by
  constructor
  · exact clip_eq_none
  · intro il content
    rw [generate_eq, processPrimitives_cons,
      clip_eq_none il _ _ _ _ 0 (Layer.new ⟨0, 0, 300, 300⟩) rfl
        (by rw [identity_transform_rectangle]
            norm_num [Rectangle.intersection, Layer.new]),
      processPrimitives_nil]
    rfl

/-- **C2, witness.** The empty-intersection rule instantiated at the root
layer of a `300×300` viewport and clip bounds `(500,500,10,10)`. -/
theorem clip_empty_prunes_witness :
    process_primitive sampleIntoLinear [Layer.new ⟨0, 0, 300, 300⟩]
        Transformation.identity (.Clip ⟨500, 500, 10, 10⟩ .None) 0 =
      [Layer.new ⟨0, 0, 300, 300⟩] :=
  clip_empty_prunes.1 sampleIntoLinear [Layer.new ⟨0, 0, 300, 300⟩]
    Transformation.identity ⟨500, 500, 10, 10⟩ .None 0
    (Layer.new ⟨0, 0, 300, 300⟩) rfl
    (by rw [identity_transform_rectangle]
        norm_num [Rectangle.intersection, Layer.new])

/-- **C3.** `Quad`, `Text`, `Image` and `Svg` primitives are appended
unconditionally to the current layer's record sequence — no intersection
test of their own transformed bounds against the layer's bounds (only
`Mesh2D` and `Clip` test); in particular a `Clip{(0,0,100,100)}` containing
a `Quad` at `(200,200,10,10)` under a `300×300` viewport creates layer 1
whose quad sequence contains the quad record with bounds
`(200,200,10,10)`. -/
theorem atoms_append_unconditionally :
    (∀ (il : Color → Rgba) (layers : List Layer) (T : Transformation)
        (content : String) (bounds : Rectangle) (size : ℚ) (color : Color)
        (font : Font) (ha : alignment.Horizontal) (va : alignment.Vertical)
        (i : Nat) (layer : Layer),
      layers[i]? = some layer →
      process_primitive il layers T
          (.Text content bounds size color font ha va) i =
        layers.set i
          { layer with
              text := layer.text ++
                [{ content := content
                   bounds := T.transform_rectangle bounds
                   size := T.transform_scalar size
                   color := il color
                   font := font
                   horizontal_alignment := ha
                   vertical_alignment := va }] }) ∧
    (∀ (il : Color → Rgba) (layers : List Layer) (T : Transformation)
        (bounds : Rectangle) (background : Background)
        (border_radius border_width : ℚ) (border_color : Color) (i : Nat)
        (layer : Layer),
      layers[i]? = some layer →
      process_primitive il layers T
          (.Quad bounds background border_radius border_width border_color)
          i =
        layers.set i
          { layer with
              quads := layer.quads ++
                [{ position := ((T.transform_rectangle bounds).x,
                     (T.transform_rectangle bounds).y)
                   size := ((T.transform_rectangle bounds).width,
                     (T.transform_rectangle bounds).height)
                   color :=
                     match background with
                     | .Color color => il color
                   border_radius := T.transform_scalar border_radius
                   border_width := T.transform_scalar border_width
                   border_color := il border_color }] }) ∧
    (∀ (il : Color → Rgba) (layers : List Layer) (T : Transformation)
        (handle : ImageHandle) (bounds : Rectangle) (i : Nat) (layer : Layer),
      layers[i]? = some layer →
      process_primitive il layers T (.Image handle bounds) i =
        layers.set i
          { layer with
              images := layer.images ++
                [Image.Raster handle (T.transform_rectangle bounds)] }) ∧
    (∀ (il : Color → Rgba) (layers : List Layer) (T : Transformation)
        (handle : SvgHandle) (bounds : Rectangle) (i : Nat) (layer : Layer),
      layers[i]? = some layer →
      process_primitive il layers T (.Svg handle bounds) i =
        layers.set i
          { layer with
              images := layer.images ++
                [Image.Vector handle (T.transform_rectangle bounds)] }) ∧
    (generate sampleIntoLinear
        [.Clip ⟨0, 0, 100, 100⟩
          (.Quad ⟨200, 200, 10, 10⟩ (.Color ⟨0, 0, 0, 1⟩) 0 0 ⟨0, 0, 0, 1⟩)]
        ⟨⟨300, 300⟩⟩ =
      [Layer.new ⟨0, 0, 300, 300⟩,
        { bounds := ⟨0, 0, 100, 100⟩
          quads := [{ position := (200, 200)
                      size := (10, 10)
                      color := ⟨0, 0, 0, 1⟩
                      border_radius := 0
                      border_width := 0
                      border_color := ⟨0, 0, 0, 1⟩ }]
          meshes := []
          text := []
          images := [] }]) := by
  refine ⟨text_eq, quad_eq, image_eq, svg_eq, ?_⟩
  rw [generate_eq, processPrimitives_cons,
    clip_eq_some sampleIntoLinear _ _ _ _ 0 (Layer.new ⟨0, 0, 300, 300⟩)
      ⟨0, 0, 100, 100⟩ rfl
      (by rw [identity_transform_rectangle]
          norm_num [Rectangle.intersection, Layer.new]),
    quad_eq sampleIntoLinear _ _ _ _ _ _ _ _ (Layer.new ⟨0, 0, 100, 100⟩) rfl,
    processPrimitives_nil]
  simp only [identity_transform_rectangle, identity_transform_scalar]
  rfl

/-- **C3, witness.** The unconditional `Quad` append instantiated at a quad
whose bounds lie entirely outside the current layer's bounds. -/
theorem atoms_append_unconditionally_witness :
    process_primitive sampleIntoLinear [Layer.new ⟨0, 0, 100, 100⟩]
        Transformation.identity
        (.Quad ⟨200, 200, 10, 10⟩ (.Color ⟨0, 0, 0, 1⟩) 0 0 ⟨0, 0, 0, 1⟩) 0 =
      [Layer.new ⟨0, 0, 100, 100⟩].set 0
        { Layer.new ⟨0, 0, 100, 100⟩ with
            quads := (Layer.new ⟨0, 0, 100, 100⟩).quads ++
              [{ position :=
                   ((Transformation.identity.transform_rectangle
                      ⟨200, 200, 10, 10⟩).x,
                    (Transformation.identity.transform_rectangle
                      ⟨200, 200, 10, 10⟩).y)
                 size :=
                   ((Transformation.identity.transform_rectangle
                      ⟨200, 200, 10, 10⟩).width,
                    (Transformation.identity.transform_rectangle
                      ⟨200, 200, 10, 10⟩).height)
                 color :=
                   match Background.Color ⟨0, 0, 0, 1⟩ with
                   | .Color color => sampleIntoLinear color
                 border_radius := Transformation.identity.transform_scalar 0
                 border_width := Transformation.identity.transform_scalar 0
                 border_color := sampleIntoLinear ⟨0, 0, 0, 1⟩ }] } :=
  atoms_append_unconditionally.2.1 sampleIntoLinear
    [Layer.new ⟨0, 0, 100, 100⟩] Transformation.identity ⟨200, 200, 10, 10⟩
    (.Color ⟨0, 0, 0, 1⟩) 0 0 ⟨0, 0, 0, 1⟩ 0 (Layer.new ⟨0, 0, 100, 100⟩) rfl

/-- **C4.** Processing `Mesh2D{buffers, size, style}` with transform `T` at
current layer `i`: the origin is `T` applied to `(0,0)`, the mesh's
axis-aligned bounds are the rectangle at that origin with the untransformed
`size` (origin translation only, geometry and size unscaled), and a mesh
record with clip bounds equal to the intersection of the layer's bounds
with that rectangle is appended to layer `i`'s mesh sequence exactly when
that intersection is non-empty — otherwise nothing changes. -/
theorem mesh_origin_translate_and_cull :
    ∀ (il : Color → Rgba) (layers : List Layer) (T : Transformation)
      (buffers : Buffers) (size : Size) (style : Style) (i : Nat)
      (layer : Layer),
      layers[i]? = some layer →
      (∀ clip_bounds,
        layer.bounds.intersection
            (Rectangle.new
              (Point.new (T.transform_point (Point.new 0 0)).x
                (T.transform_point (Point.new 0 0)).y) size) =
          some clip_bounds →
        process_primitive il layers T (.Mesh2D buffers size style) i =
          layers.set i
            { layer with
                meshes := layer.meshes ++
                  [{ origin := T.transform_point (Point.new 0 0)
                     buffers := buffers
                     clip_bounds := clip_bounds
                     style := style }] }) ∧
      (layer.bounds.intersection
          (Rectangle.new
            (Point.new (T.transform_point (Point.new 0 0)).x
              (T.transform_point (Point.new 0 0)).y) size) = none →
        process_primitive il layers T (.Mesh2D buffers size style) i =
          layers) := by
  intro il layers T buffers size style i layer hli
  exact ⟨fun clip_bounds hint =>
      mesh_eq_some il layers T buffers size style i layer clip_bounds hli hint,
    fun hint => mesh_eq_none il layers T buffers size style i layer hli hint⟩

/-- **C4, witness.** A mesh of size `50×50` under the identity transform on
the root layer of a `300×300` viewport: the origin is `(0,0)` and the mesh
record is appended with clip bounds `(0,0,50,50)`. -/
theorem mesh_origin_translate_and_cull_witness :
    process_primitive sampleIntoLinear [Layer.new ⟨0, 0, 300, 300⟩]
        Transformation.identity (.Mesh2D ⟨7⟩ ⟨50, 50⟩ ⟨3⟩) 0 =
      [Layer.new ⟨0, 0, 300, 300⟩].set 0
        { Layer.new ⟨0, 0, 300, 300⟩ with
            meshes := (Layer.new ⟨0, 0, 300, 300⟩).meshes ++
              [{ origin := Transformation.identity.transform_point
                   (Point.new 0 0)
                 buffers := ⟨7⟩
                 clip_bounds := ⟨0, 0, 50, 50⟩
                 style := ⟨3⟩ }] } :=
  ((mesh_origin_translate_and_cull sampleIntoLinear
      [Layer.new ⟨0, 0, 300, 300⟩] Transformation.identity ⟨7⟩ ⟨50, 50⟩ ⟨3⟩ 0
      (Layer.new ⟨0, 0, 300, 300⟩) rfl).1 ⟨0, 0, 50, 50⟩
    (by simp only [identity_transform_point]
        norm_num [Rectangle.intersection, Rectangle.new, Point.new,
          Layer.new]))

/-- **C5.** Depth-first order is preserved: `Group` children are processed
in order with unchanged transform and current layer (processing a `Group`
is the left-to-right fold of its children, and processing a concatenation
is processing the first part then the second); within every layer, records
already present stay in place and new records are appended after them (so
each category lists its records in depth-first visitation order); layers
are only appended at the end (each pre-existing index keeps its layer), so
a layer's index equals its creation order; and layer 0 of `generate` is the
root layer with the viewport's bounds. -/
theorem depth_first_order_preserved :
    (∀ (il : Color → Rgba) (layers : List Layer) (T : Transformation)
        (ps : List Primitive) (i : Nat),
      process_primitive il layers T (.Group ps) i =
        process_primitives il layers T ps i) ∧
    (∀ (il : Color → Rgba) (layers : List Layer) (T : Transformation)
        (ps qs : List Primitive) (i : Nat),
      process_primitives il layers T (ps ++ qs) i =
        process_primitives il (process_primitives il layers T ps i) T qs i) ∧
    (∀ (il : Color → Rgba) (layers : List Layer) (T : Transformation)
        (p : Primitive) (i : Nat),
      layers.length ≤ (process_primitive il layers T p i).length) ∧
    (∀ (il : Color → Rgba) (layers : List Layer) (T : Transformation)
        (p : Primitive) (i j : Nat),
      j < layers.length →
      ∃ old new, layers[j]? = some old ∧
        (process_primitive il layers T p i)[j]? = some new ∧
        old.Grows new) ∧
    (∀ (il : Color → Rgba) (ps : List Primitive) (vp : Viewport),
      ∃ root, (generate il ps vp)[0]? = some root ∧
        root.bounds = Rectangle.with_size vp.logical_size) := by
  refine ⟨?_, processPrimitives_append, ?_, ?_, ?_⟩
  · intro il layers T ps i
    rw [process_primitive]
  · intro il layers T p i
    exact (processPrimitive_stepInv il layers T p i).1
  · intro il layers T p i j hj
    obtain ⟨o, n, h1, h2, h3, _⟩ :=
      (processPrimitive_stepInv il layers T p i).2 j hj
    exact ⟨o, n, h1, h2, h3⟩
  · intro il ps vp
    obtain ⟨o, n, h1, h2, h3, _⟩ :=
      (processPrimitives_stepInv il
        [Layer.new (Rectangle.with_size vp.logical_size)]
        Transformation.identity ps 0).2 0 (by norm_num)
    simp only [List.getElem?_cons_zero, Option.some.injEq] at h1
    refine ⟨n, ?_, ?_⟩
    · rw [generate_eq]; exact h2
    · rw [h3.1, ← h1]
      rfl

/-- **C5, witness.** The record-preservation part instantiated at the root
layer and a `None` primitive. -/
theorem depth_first_order_preserved_witness :
    ∃ old new,
      ([Layer.new ⟨0, 0, 300, 300⟩] : List Layer)[0]? = some old ∧
      (process_primitive sampleIntoLinear [Layer.new ⟨0, 0, 300, 300⟩]
          Transformation.identity .None 0)[0]? = some new ∧
      old.Grows new :=
  depth_first_order_preserved.2.2.2.1 sampleIntoLinear
    [Layer.new ⟨0, 0, 300, 300⟩] Transformation.identity .None 0 0
    (by norm_num)

/-- **C8.** During one pass, processing a primitive with current layer `i`
changes at most the record sequences of layer `i` (and, for `Clip`, appends
new layers at the end): every pre-existing index still holds its layer with
the same bounds, layers at indices other than `i` are completely untouched,
and no layer is removed or reordered. -/
theorem single_pass_append_only :
    ∀ (il : Color → Rgba) (layers : List Layer) (T : Transformation)
      (p : Primitive) (i : Nat),
      layers.length ≤ (process_primitive il layers T p i).length ∧
      ∀ j, j < layers.length → ∃ old new,
        layers[j]? = some old ∧
        (process_primitive il layers T p i)[j]? = some new ∧
        new.bounds = old.bounds ∧ old.Grows new ∧ (j ≠ i → new = old) := by
  intro il layers T p i
  obtain ⟨hlen, h⟩ := processPrimitive_stepInv il layers T p i
  refine ⟨hlen, fun j hj => ?_⟩
  obtain ⟨old, new, h1, h2, h3, h4⟩ := h j hj
  exact ⟨old, new, h1, h2, h3.1, h3, h4⟩

/-- **C8, witness.** Instantiated at the root layer with a `None`
primitive. -/
theorem single_pass_append_only_witness :
    ∃ old new,
      ([Layer.new ⟨0, 0, 300, 300⟩] : List Layer)[0]? = some old ∧
      (process_primitive sampleIntoLinear [Layer.new ⟨0, 0, 300, 300⟩]
          Transformation.identity .None 0)[0]? = some new ∧
      new.bounds = old.bounds ∧ old.Grows new ∧ ((0 : Nat) ≠ 0 → new = old) :=
  (single_pass_append_only sampleIntoLinear [Layer.new ⟨0, 0, 300, 300⟩]
      Transformation.identity .None 0).2 0 (by norm_num)

/-- **C10.** Every layer produced by `generate` has bounds contained in the
root viewport rectangle; more strongly, a clip layer's bounds are the
intersection with the bounds of the layer that was current when the `Clip`
was processed, hence contained in them. -/
theorem layer_bounds_nested :
    (∀ (il : Color → Rgba) (ps : List Primitive) (vp : Viewport)
        (l : Layer), l ∈ generate il ps vp →
      l.bounds.ContainedIn (Rectangle.with_size vp.logical_size)) ∧
    (∀ (il : Color → Rgba) (layers : List Layer) (T : Transformation)
        (bounds : Rectangle) (content : Primitive) (i : Nat) (layer : Layer)
        (r : Rectangle),
      layers[i]? = some layer →
      layer.bounds.intersection (T.transform_rectangle bounds) = some r →
      r.ContainedIn layer.bounds ∧
      ∃ l', (process_primitive il layers T (.Clip bounds content)
          i)[layers.length]? = some l' ∧ l'.bounds = r) := by
  constructor
  · intro il ps vp l hl
    rw [generate_eq] at hl
    refine processPrimitives_boundsInv il _ Transformation.identity ps 0 _
      ?_ l hl
    intro l' hl'
    rcases List.mem_singleton.mp hl' with rfl
    exact Rectangle.containedIn_rfl _
  · intro il layers T bounds content i layer r hli hint
    refine ⟨(Rectangle.intersection_containedIn hint).1, ?_⟩
    rw [clip_eq_some il layers T bounds content i layer r hli hint]
    obtain ⟨o, n, h1, h2, h3, _⟩ :=
      (processPrimitive_stepInv il (layers ++ [Layer.new r]) T content
        layers.length).2 layers.length (by simp)
    rw [List.getElem?_concat_length, Option.some.injEq] at h1
    exact ⟨n, h2, by rw [h3.1, ← h1]; rfl⟩

/-- **C10, witness.** A `(0,0,100,100)` clip at the root of a `300×300`
viewport: the created layer's bounds are the intersection and lie inside
the root layer's bounds. -/
theorem layer_bounds_nested_witness :
    Rectangle.ContainedIn ⟨0, 0, 100, 100⟩ (Layer.new ⟨0, 0, 300, 300⟩).bounds ∧
    ∃ l', (process_primitive sampleIntoLinear [Layer.new ⟨0, 0, 300, 300⟩]
        Transformation.identity (.Clip ⟨0, 0, 100, 100⟩ .None)
        0)[([Layer.new ⟨0, 0, 300, 300⟩] : List Layer).length]? = some l' ∧
      l'.bounds = ⟨0, 0, 100, 100⟩ :=
  layer_bounds_nested.2 sampleIntoLinear [Layer.new ⟨0, 0, 300, 300⟩]
    Transformation.identity ⟨0, 0, 100, 100⟩ .None 0
    (Layer.new ⟨0, 0, 300, 300⟩) ⟨0, 0, 100, 100⟩ rfl
    (by rw [identity_transform_rectangle]
        norm_num [Rectangle.intersection, Layer.new])

end Iced
